import Mathlib

/-!
Verification of the IMOS document indexing and retrieval-augmented answering core
(`src/streamlit_app.py`), shallowly embedded in Lean.

Conventions of the embedding:
* Python strings are `String` (or `List Char` where slicing matters), floats are
  modelled over exact arithmetic (`ℚ` for stored vector entries, `ℝ` for derived
  scores).  IEEE special values are made explicit: a float expression whose value
  would be NaN is modelled as `Option.none`.
* The SQLite table `pdf_documents` is a `List DocRow` in rowid order; `INSERT OR
  REPLACE` on the `file_id UNIQUE` column deletes every conflicting row and
  appends the fresh row at the end.
* Calls to external collaborators (sentence-transformer `encode`, Google Drive
  download, the Groq HTTP endpoint) are passed in as explicit function
  parameters; a call that may raise is given an `Except` codomain, the `error`
  case carrying the exception text.
* Streamlit display effects (`st.error`, `st.warning`, `st.success`) are
  returned as data (`Option String` / event lists) instead of being performed.
-/

namespace IMOS

/-- Embedding of `np.dot a b` on one-dimensional arrays: the dot product.  Vector entries are
modelled as rationals (exact values of the floats involved). -/
def dot (a b : List ℚ) : ℚ :=
  (List.zipWith (fun x y => x * y) a b).sum

/-- Sum of squares of a vector, `dot a a`; the square of the Euclidean norm. -/
def sumSq (a : List ℚ) : ℚ := dot a a

/-- Embedding of `np.linalg.norm a`: the Euclidean norm, as a real number. -/
noncomputable def vnorm (a : List ℚ) : ℝ :=
  Real.sqrt ((sumSq a : ℚ) : ℝ)

/-- Embedding of `cosine_sim` (src/streamlit_app.py:128-130):
`return np.dot(a, b) / (np.linalg.norm(a) * np.linalg.norm(b))`.

When the denominator is zero, one of the vectors has zero norm, hence is the
zero vector, hence the numerator is zero as well: the IEEE result of the
division is `0.0/0.0 = NaN` (no exception is raised).  NaN is modelled as
`none`; a well-defined quotient is `some` of its exact value. -/
noncomputable def cosine_sim (a b : List ℚ) : Option ℝ :=
  if vnorm a * vnorm b = 0 then none
  else some ((dot a b : ℝ) / (vnorm a * vnorm b))

theorem dot_comm : ∀ a b : List ℚ, dot a b = dot b a
  | [], [] => rfl
  | [], _ :: _ => rfl
  | _ :: _, [] => rfl
  | x :: a, y :: b => by
    simp only [dot, List.zipWith_cons_cons, List.sum_cons] at *
    rw [mul_comm x y]
    have ih := dot_comm a b
    simp only [dot] at ih
    rw [ih]

theorem zipWith_mul_self (a : List ℚ) :
    List.zipWith (fun x y => x * y) a a = a.map (fun x => x * x) := by
  induction a with
  | nil => rfl
  | cons x a ih => simp [ih]

theorem sumSq_nonneg (a : List ℚ) : 0 ≤ sumSq a := by
  rw [sumSq, dot, zipWith_mul_self]
  apply List.sum_nonneg
  intro x hx
  simp only [List.mem_map] at hx
  obtain ⟨y, -, rfl⟩ := hx
  exact mul_self_nonneg y

theorem vnorm_nonneg (a : List ℚ) : 0 ≤ vnorm a := Real.sqrt_nonneg _

theorem vnorm_eq_zero_iff (a : List ℚ) : vnorm a = 0 ↔ sumSq a = 0 := by
  rw [vnorm, Real.sqrt_eq_zero]
  · exact_mod_cast Iff.rfl
  · exact_mod_cast sumSq_nonneg a

theorem vnorm_mul_self (a : List ℚ) : vnorm a * vnorm a = ((sumSq a : ℚ) : ℝ) := by
  rw [vnorm]
  exact Real.mul_self_sqrt (by exact_mod_cast sumSq_nonneg a)

/-- Cauchy–Schwarz for list dot products, squared form. -/
theorem dot_sq_le : ∀ a b : List ℚ, (dot a b) ^ 2 ≤ sumSq a * sumSq b
  | [], b => by
    cases b <;> simp [dot, sumSq]
  | _ :: _, [] => by
    simp [dot, sumSq]
  | x :: a, y :: b => by
    have ih := dot_sq_le a b
    have hA := sumSq_nonneg a
    have hB := sumSq_nonneg b
    have hcons : dot (x :: a) (y :: b) = x * y + dot a b := by
      simp [dot]
    have hconsA : sumSq (x :: a) = x * x + sumSq a := by
      simp [sumSq, dot]
    have hconsB : sumSq (y :: b) = y * y + sumSq b := by
      simp [sumSq, dot]
    rw [hcons, hconsA, hconsB]
    rcases eq_or_lt_of_le hB with hB0 | hBpos
    · have hd : dot a b = 0 := by nlinarith [sq_nonneg (dot a b)]
      rw [hd, ← hB0]
      nlinarith [mul_nonneg hA (sq_nonneg y)]
    · nlinarith [ih, hA, hBpos,
        sq_nonneg (x * sumSq b - y * dot a b),
        mul_nonneg (sq_nonneg y) (sub_nonneg.mpr ih),
        mul_nonneg hBpos.le (sub_nonneg.mpr ih)]

/-- A well-defined cosine similarity never exceeds 1. -/
theorem cosine_sim_le_one {a b : List ℚ} {s : ℝ} (h : cosine_sim a b = some s) :
    s ≤ 1 := by
  rw [cosine_sim] at h
  split at h
  · exact absurd h (by simp)
  · rename_i hne
    have hpos : 0 < vnorm a * vnorm b :=
      lt_of_le_of_ne (mul_nonneg (vnorm_nonneg a) (vnorm_nonneg b)) (Ne.symm hne)
    have hsq : ((dot a b : ℚ) : ℝ) ^ 2 ≤ ((sumSq a : ℚ) : ℝ) * ((sumSq b : ℚ) : ℝ) := by
      exact_mod_cast dot_sq_le a b
    have hle : ((dot a b : ℚ) : ℝ) ≤ vnorm a * vnorm b := by
      have h1 : ((dot a b : ℚ) : ℝ) ≤ |((dot a b : ℚ) : ℝ)| := le_abs_self _
      have h2 : |((dot a b : ℚ) : ℝ)| = Real.sqrt (((dot a b : ℚ) : ℝ) ^ 2) :=
        (Real.sqrt_sq_eq_abs _).symm
      have h3 : Real.sqrt (((dot a b : ℚ) : ℝ) ^ 2) ≤
          Real.sqrt (((sumSq a : ℚ) : ℝ) * ((sumSq b : ℚ) : ℝ)) :=
        Real.sqrt_le_sqrt hsq
      have h4 : Real.sqrt (((sumSq a : ℚ) : ℝ) * ((sumSq b : ℚ) : ℝ)) =
          vnorm a * vnorm b := by
        rw [vnorm, vnorm]
        exact Real.sqrt_mul (by exact_mod_cast sumSq_nonneg a) _
      calc ((dot a b : ℚ) : ℝ) ≤ |((dot a b : ℚ) : ℝ)| := h1
        _ = Real.sqrt (((dot a b : ℚ) : ℝ) ^ 2) := h2
        _ ≤ Real.sqrt (((sumSq a : ℚ) : ℝ) * ((sumSq b : ℚ) : ℝ)) := h3
        _ = vnorm a * vnorm b := h4
    have hs : ((dot a b : ℚ) : ℝ) / (vnorm a * vnorm b) = s :=
      (Option.some.injEq _ _).mp h
    rw [← hs]
    exact (div_le_one hpos).mpr hle

theorem cosine_sim_comm (a b : List ℚ) : cosine_sim a b = cosine_sim b a := by
  unfold cosine_sim
  have hd : dot a b = dot b a := dot_comm a b
  have hm : vnorm a * vnorm b = vnorm b * vnorm a := mul_comm _ _
  by_cases h : vnorm a * vnorm b = 0
  · rw [if_pos h, if_pos (by rwa [← hm])]
  · rw [if_neg h, if_neg (by rwa [← hm]), hd, hm]

theorem cosine_sim_zero_left {a : List ℚ} (b : List ℚ) (h : vnorm a = 0) :
    cosine_sim a b = none := by
  unfold cosine_sim
  rw [if_pos (by rw [h, zero_mul])]

theorem cosine_sim_zero_right (a : List ℚ) {b : List ℚ} (h : vnorm b = 0) :
    cosine_sim a b = none := by
  rw [cosine_sim_comm]
  exact cosine_sim_zero_left a h

/-- C1 counterexample: at `a = [0]`, `b = [1]` the first vector has norm exactly
zero, yet `cosine_sim` does not return `0`: the IEEE division `0.0/0.0` yields
NaN (modelled `none`), not the float `0.0` (which would be `some 0`). -/
theorem C1_counterexample :
    vnorm [(0 : ℚ)] = 0 ∧ cosine_sim [(0 : ℚ)] [(1 : ℚ)] ≠ some 0 := by
  have h0 : vnorm [(0 : ℚ)] = 0 := by
    rw [vnorm_eq_zero_iff]
    norm_num [sumSq, dot]
  refine ⟨h0, ?_⟩
  rw [cosine_sim_zero_left _ h0]
  simp

/-- C1 (amended): for every pair of vectors, if either vector norm is exactly
zero then `cosine_sim` returns NaN (modelled as `none`) — not `0` — and no
division error is raised (the function is total: the IEEE quotient `0.0/0.0`
is NaN, not an exception). -/
theorem C1_zero_norm_nan (a b : List ℚ) (h : vnorm a = 0 ∨ vnorm b = 0) :
    cosine_sim a b = none := by
  rcases h with h | h
  · exact cosine_sim_zero_left b h
  · exact cosine_sim_zero_right a h

/-- Witness for C1 (amended) at the concrete input `a = [0]`, `b = [1]`. -/
theorem C1_zero_norm_nan_witness :
    (vnorm [(0 : ℚ)] = 0 ∨ vnorm [(1 : ℚ)] = 0) ∧
      cosine_sim [(0 : ℚ)] [(1 : ℚ)] = none := by
  have h0 : vnorm [(0 : ℚ)] = 0 := by
    rw [vnorm_eq_zero_iff]
    norm_num [sumSq, dot]
  exact ⟨Or.inl h0, C1_zero_norm_nan _ _ (Or.inl h0)⟩

/-- C9: cosine similarity is symmetric, and the similarity of any vector of
non-zero norm with itself is exactly `1` over exact arithmetic. -/
theorem C9_cosine_symm_self (a b : List ℚ) :
    cosine_sim a b = cosine_sim b a ∧
      (vnorm a ≠ 0 → cosine_sim a a = some 1) := by
  refine ⟨cosine_sim_comm a b, fun h => ?_⟩
  unfold cosine_sim
  rw [if_neg (mul_ne_zero h h)]
  have hs : sumSq a ≠ 0 := fun hc => h ((vnorm_eq_zero_iff a).mpr hc)
  have : ((dot a a : ℚ) : ℝ) / (vnorm a * vnorm a) = 1 := by
    rw [vnorm_mul_self, show dot a a = sumSq a from rfl,
      div_self (by exact_mod_cast hs)]
  rw [this]

/-- Witness for C9 at the concrete vector `[3, 4]` (norm `5 ≠ 0`). -/
theorem C9_cosine_symm_self_witness :
    vnorm [(3 : ℚ), 4] ≠ 0 ∧ cosine_sim [(3 : ℚ), 4] [(3 : ℚ), 4] = some 1 := by
  have h : vnorm [(3 : ℚ), 4] ≠ 0 := by
    rw [Ne, vnorm_eq_zero_iff]
    norm_num [sumSq, dot]
  exact ⟨h, (C9_cosine_symm_self [(3 : ℚ), 4] [(3 : ℚ), 4]).2 h⟩

/-- A row of the SQLite table `pdf_documents` (src/streamlit_app.py:86-100), in
column order; the autoincrement `id` primary key is left implicit: the list
order is the rowid order.  `embedding` is the stored JSON blob, kept in decoded
form (`none` = SQL NULL). -/
structure DocRow where
  user_id : String
  file_id : String
  name : String
  drive_link : String
  modified_time : String
  size : Int
  parent : String
  text_content : List Char
  embedding : Option (List ℚ)
  last_indexed : Nat
deriving DecidableEq

/-- One entry of the list built by `semantic_search` (src/streamlit_app.py:179-188). -/
structure SearchResult where
  file_id : String
  name : String
  drive_link : String
  modified_time : String
  size : Int
  parent : String
  snippet : List Char
  score : ℝ

/-- Embedding of `save_pdf_to_db` (src/streamlit_app.py:132-145): `INSERT OR REPLACE INTO
pdf_documents ...`.  SQLite deletes every row conflicting on the UNIQUE
`file_id` column and inserts the new row under a fresh rowid, i.e. at the end
of the enumeration; `now` is `datetime.utcnow()`. -/
def save_pdf_to_db (db : List DocRow) (user_id file_id name drive_link modified_time : String)
    (size : Int) (parent : String) (text_content : List Char)
    (embedding : Option (List ℚ)) (now : Nat) : List DocRow :=
  db.filter (fun r => r.file_id != file_id) ++
    [⟨user_id, file_id, name, drive_link, modified_time, size, parent,
      text_content, embedding, now⟩]

/-- The SELECT of `semantic_search` (src/streamlit_app.py:159-170): rows with
`embedding IS NOT NULL`, additionally restricted to one `user_id` when the
passed user id is truthy in Python (not `None` and not the empty string). -/
def selectEmbedded : Option String → List DocRow → List DocRow
  | some uid, db =>
    if uid = "" then db.filter (fun r => r.embedding.isSome)
    else db.filter (fun r => r.user_id == uid && r.embedding.isSome)
  | none, db => db.filter (fun r => r.embedding.isSome)

/-- The per-row loop of `semantic_search` (src/streamlit_app.py:172-190): skip
rows whose embedding is falsy, score the rest, keep those with `score > 0.1`
(a NaN score fails this comparison and is likewise dropped), carrying the first
400 characters of `text_content` as snippet. -/
noncomputable def searchCandidates (query_emb : List ℚ) (rows : List DocRow) :
    List SearchResult :=
  rows.filterMap (fun r =>
    match r.embedding with
    | none => none
    | some emb =>
      match cosine_sim query_emb emb with
      | none => none
      | some score =>
        if 0.1 < score then
          some ⟨r.file_id, r.name, r.drive_link, r.modified_time, r.size, r.parent,
            r.text_content.take 400, score⟩
        else none)

/-- Comparator of `sorted(results, key=lambda x: x[\x27score\x27], reverse=True)`
(src/streamlit_app.py:193): stable descending order by score. -/
noncomputable def scoreLe (x y : SearchResult) : Bool :=
  decide (y.score ≤ x.score)

/-- Embedding of `semantic_search` (src/streamlit_app.py:147-194).  `encode` is the
sentence-transformer encoder applied to the query (no truncation happens here),
`db` the table contents.  the Python builtin `sorted` is a stable sort, modelled by
`List.mergeSort`. -/
noncomputable def semantic_search (query : List Char) (top_k : Nat)
    (user_id : Option String) (encode : List Char → List ℚ)
    (db : List DocRow) : List SearchResult :=
  if query = [] then []
  else
    ((searchCandidates (encode query) (selectEmbedded user_id db)).mergeSort
      scoreLe).take top_k

/-- Embedding of `compute_embedding` (src/streamlit_app.py:120-126): truncate to 4000
characters, then encode.  `encode` models `get_embed_model().encode` together
with the lazy model load, which may raise (`Except.error` carries the
exception text); the JSON serialisation of the resulting vector is kept as the
vector itself (`json.dumps` is injective on float lists). -/
def compute_embedding (encode : List Char → Except String (List ℚ))
    (text : List Char) : Except String (List ℚ) :=
  let t := if text.length > 4000 then text.take 4000 else text
  encode t

theorem compute_embedding_eq (encode : List Char → Except String (List ℚ))
    (text : List Char) :
    compute_embedding encode text = encode (text.take 4000) := by
  unfold compute_embedding
  by_cases h : text.length > 4000
  · rw [if_pos h]
  · rw [if_neg h, List.take_of_length_le (by omega)]

/-- C6: search with empty query text returns the empty sequence, for every
scope tag, every `k`, every embedder and every store state — in particular the
result does not depend on the embedder or on the store. -/
theorem C6_empty_query (top_k : Nat) (user_id : Option String)
    (encode : List Char → List ℚ) (db : List DocRow) :
    semantic_search [] top_k user_id encode db = [] := by
  simp [semantic_search]

/-- C7: the computed embedding depends only on the first 4000 characters of the
text; in particular a 5000-character text and a 4000-character text sharing
the same first 4000 characters embed identically. -/
theorem C7_truncation (encode : List Char → Except String (List ℚ))
    (text : List Char) :
    compute_embedding encode text = compute_embedding encode (text.take 4000) ∧
      ∀ t1 t2 : List Char, t1.length = 5000 → t2.length = 4000 →
        t1.take 4000 = t2.take 4000 →
        compute_embedding encode t1 = compute_embedding encode t2 := by
  constructor
  · rw [compute_embedding_eq, compute_embedding_eq, List.take_take, min_self]
  · intro t1 t2 h1 h2 h12
    rw [compute_embedding_eq, compute_embedding_eq, h12]

/-- Witness for C7: a 5000-character text and a 4000-character text agreeing on
the first 4000 characters. -/
theorem C7_truncation_witness :
    (List.replicate 5000 'a').length = 5000 ∧
      (List.replicate 4000 'a').length = 4000 ∧
      (List.replicate 5000 'a').take 4000 = (List.replicate 4000 'a').take 4000 ∧
      compute_embedding (fun t => Except.ok [(t.length : ℚ)])
          (List.replicate 5000 'a') =
        compute_embedding (fun t => Except.ok [(t.length : ℚ)])
          (List.replicate 4000 'a') := by
  have h1 : (List.replicate 5000 'a').length = 5000 := List.length_replicate 5000 'a'
  have h2 : (List.replicate 4000 'a').length = 4000 := List.length_replicate 4000 'a'
  have h12 : (List.replicate 5000 'a').take 4000 =
      (List.replicate 4000 'a').take 4000 := by
    rw [List.take_replicate, List.take_replicate]
    norm_num
  exact ⟨h1, h2, h12,
    (C7_truncation (fun t => Except.ok [(t.length : ℚ)]) []).2 _ _ h1 h2 h12⟩

/-- C5: upserting a row whose `file_id` is already present leaves exactly one
row carrying that id — the fresh one, with the latest content and embedding —
regardless of `user_id`, and `file_id`-uniqueness of the store is preserved by
every upsert. -/
theorem C5_upsert (db : List DocRow) (uid fid nm link mtime : String) (size : Int)
    (parent : String) (text : List Char) (emb : Option (List ℚ)) (now : Nat)
    (huniq : db.Pairwise (fun r s => r.file_id ≠ s.file_id)) :
    (save_pdf_to_db db uid fid nm link mtime size parent text emb now).filter
        (fun r => r.file_id == fid) =
      [⟨uid, fid, nm, link, mtime, size, parent, text, emb, now⟩] ∧
      (save_pdf_to_db db uid fid nm link mtime size parent text emb now).Pairwise
        (fun r s => r.file_id ≠ s.file_id) := by
  constructor
  · rw [save_pdf_to_db, List.filter_append, List.filter_filter]
    have hnil : (db.filter fun r => (r.file_id == fid) && (r.file_id != fid)) = [] := by
      rw [List.filter_eq_nil_iff]
      intro a _
      simp [bne]
    rw [hnil]
    simp
  · rw [save_pdf_to_db, List.pairwise_append]
    refine ⟨List.Pairwise.sublist (List.filter_sublist db) huniq,
      List.pairwise_singleton _ _, ?_⟩
    intro a ha b hb
    have hane : (a.file_id != fid) = true := (List.mem_filter.mp ha).2
    have hb1 : b = ⟨uid, fid, nm, link, mtime, size, parent, text, emb, now⟩ := by
      simpa using hb
    rw [hb1]
    simpa [bne] using hane

def wRow1 : DocRow := ⟨"u1", "f1", "one", "l1", "t1", 1, "p1", ['x'], none, 0⟩

def wRow2 : DocRow := ⟨"u2", "f2", "two", "l2", "t2", 2, "p2", [], some [1], 0⟩

/-- Witness for C5: re-upsert of the already-present id `f1` (under a different
owner tag) into a two-row store with unique ids. -/
theorem C5_upsert_witness :
    [wRow1, wRow2].Pairwise (fun r s => r.file_id ≠ s.file_id) ∧
      ((save_pdf_to_db [wRow1, wRow2] "u9" "f1" "new" "l9" "t9" 9 "p9" ['y']
            (some [2]) 5).filter (fun r => r.file_id == "f1") =
          [⟨"u9", "f1", "new", "l9", "t9", 9, "p9", ['y'], some [2], 5⟩] ∧
        (save_pdf_to_db [wRow1, wRow2] "u9" "f1" "new" "l9" "t9" 9 "p9" ['y']
            (some [2]) 5).Pairwise (fun r s => r.file_id ≠ s.file_id)) := by
  have hp : [wRow1, wRow2].Pairwise (fun r s => r.file_id ≠ s.file_id) := by
    decide
  exact ⟨hp,
    C5_upsert [wRow1, wRow2] "u9" "f1" "new" "l9" "t9" 9 "p9" ['y'] (some [2]) 5 hp⟩

theorem selectEmbedded_sublist (uid : Option String) (db : List DocRow) :
    (selectEmbedded uid db).Sublist db := by
  cases uid with
  | none => exact List.filter_sublist db
  | some u =>
    by_cases hu : u = ""
    · rw [selectEmbedded, if_pos hu]
      exact List.filter_sublist db
    · rw [selectEmbedded, if_neg hu]
      exact List.filter_sublist db

theorem of_mem_searchCandidates {qe : List ℚ} {rows : List DocRow}
    {r : SearchResult} (h : r ∈ searchCandidates qe rows) :
    ∃ row ∈ rows, ∃ emb, row.embedding = some emb ∧
      cosine_sim qe emb = some r.score ∧ (0.1 : ℝ) < r.score := by
  rw [searchCandidates, List.mem_filterMap] at h
  obtain ⟨row, hrow, hmap⟩ := h
  refine ⟨row, hrow, ?_⟩
  split at hmap
  · cases hmap
  · rename_i emb hemb
    split at hmap
    · cases hmap
    · rename_i score hcos
      split at hmap
      · rename_i hth
        injection hmap with h2
        subst h2
        exact ⟨emb, hemb, hcos, hth⟩
      · cases hmap

theorem scoreLe_trans (a b c : SearchResult) (h1 : scoreLe a b) (h2 : scoreLe b c) :
    scoreLe a c := by
  simp only [scoreLe, decide_eq_true_iff] at *
  exact le_trans h2 h1

theorem scoreLe_total (a b : SearchResult) : scoreLe a b || scoreLe b a := by
  simp only [scoreLe, Bool.or_eq_true, decide_eq_true_iff]
  exact le_total b.score a.score

theorem mergeSort_scoreLe_sorted (l : List SearchResult) :
    (l.mergeSort scoreLe).Pairwise (fun x y => y.score ≤ x.score) := by
  have h := @List.sorted_mergeSort _ scoreLe scoreLe_trans scoreLe_total l
  exact h.imp (fun hab => by simpa [scoreLe] using hab)

theorem mergeSort_scoreLe_stable {c l : List SearchResult}
    (hc : c.Pairwise (fun x y => y.score ≤ x.score)) (hsub : c.Sublist l) :
    c.Sublist (l.mergeSort scoreLe) :=
  List.sublist_mergeSort scoreLe_trans scoreLe_total
    (hc.imp (fun hab => by simpa [scoreLe] using hab)) hsub

/-- C4: for every query, scope and `k`: search returns at most `k` entries;
the score of every returned entry lies strictly above the 0.1 relevance floor
(hence inside [0.1, 1.0]) and is at most 1 (Cauchy–Schwarz over exact
arithmetic), documents with score ≤ 0.1 being discarded; the result is sorted
descending by score; every returned entry stems from a stored document with a
present embedding; and the result is the `k`-prefix of the stable descending
sort `S` of the candidate enumeration: `S` is a permutation of the candidates,
descending, and every descending pair of the enumeration — in particular every
tie, in enumeration order — survives into `S`. -/
theorem C4_search_ranking (query : List Char) (top_k : Nat)
    (user_id : Option String) (encode : List Char → List ℚ) (db : List DocRow) :
    (semantic_search query top_k user_id encode db).length ≤ top_k ∧
      (∀ r ∈ semantic_search query top_k user_id encode db,
        (0.1 : ℝ) < r.score ∧ r.score ≤ 1) ∧
      (semantic_search query top_k user_id encode db).Pairwise
        (fun x y => y.score ≤ x.score) ∧
      (∀ r ∈ semantic_search query top_k user_id encode db,
        ∃ row ∈ db, ∃ emb, row.embedding = some emb ∧
          cosine_sim (encode query) emb = some r.score) ∧
      ((searchCandidates (encode query) (selectEmbedded user_id db)).mergeSort
          scoreLe).Perm
        (searchCandidates (encode query) (selectEmbedded user_id db)) ∧
      (∀ c : List SearchResult, c.Pairwise (fun x y => y.score ≤ x.score) →
        c.Sublist (searchCandidates (encode query) (selectEmbedded user_id db)) →
        c.Sublist
          ((searchCandidates (encode query) (selectEmbedded user_id db)).mergeSort
            scoreLe)) ∧
      semantic_search query top_k user_id encode db =
        (if query = [] then []
         else
           ((searchCandidates (encode query) (selectEmbedded user_id db)).mergeSort
             scoreLe).take top_k) := by
  have hmemc : ∀ r ∈ semantic_search query top_k user_id encode db,
      r ∈ searchCandidates (encode query) (selectEmbedded user_id db) := by
    intro r hr
    rw [semantic_search] at hr
    split at hr
    · cases hr
    · exact List.mem_mergeSort.mp ((List.take_sublist _ _).subset hr)
  refine ⟨?_, ?_, ?_, ?_, List.mergeSort_perm _ _,
    fun c hc hs => mergeSort_scoreLe_stable hc hs, rfl⟩
  · rw [semantic_search]
    split
    · simp
    · exact List.length_take_le _ _
  · intro r hr
    obtain ⟨row, hrow, emb, hemb, hcos, hth⟩ :=
      of_mem_searchCandidates (hmemc r hr)
    exact ⟨hth, cosine_sim_le_one hcos⟩
  · rw [semantic_search]
    split
    · exact List.Pairwise.nil
    · exact List.Pairwise.sublist (List.take_sublist _ _)
        (mergeSort_scoreLe_sorted _)
  · intro r hr
    obtain ⟨row, hrow, emb, hemb, hcos, hth⟩ :=
      of_mem_searchCandidates (hmemc r hr)
    exact ⟨row, (selectEmbedded_sublist user_id db).subset hrow, emb, hemb, hcos⟩

/-- A raw entry of `st.session_state.conversation_history` as inspected by the
defensive cleaning loop of `answer_query_with_groq`
(src/streamlit_app.py:218-226): an arbitrary Python value, recorded through the
only observations the loop makes — whether it is a dict, and its optional
`role` and `content` values, `content` kept as its `str()` rendering (which
always succeeds). -/
structure RawEntry where
  isDict : Bool
  role : Option String
  content : Option String
deriving DecidableEq

/-- A chat-completions message: a role together with a content string. -/
structure Message where
  role : String
  content : String
deriving DecidableEq

/-- The grounding context block (src/streamlit_app.py:199):
`"\n---\n".join(name + ":\n" + snippet)`. -/
def contextBlock (top_matches : List SearchResult) : String :=
  String.intercalate "\n---\n"
    (top_matches.map (fun d => d.name ++ ":\n" ++ String.mk d.snippet))

/-- The system message (src/streamlit_app.py:202-215). -/
def systemMessage (top_matches : List SearchResult) : Message :=
  ⟨"system",
    "You are IMOS, an intelligent memory OS for professionals and solopreneurs. " ++
    "You help users understand and analyze their documents through natural conversation. " ++
    "\nRELEVANT DOCUMENT CONTEXT:\n" ++ contextBlock top_matches ++ "\n\n" ++
    "Guidelines:\n" ++
    "- Use the provided context to answer questions accurately\n" ++
    "- Reference specific documents when citing information\n" ++
    "- If the context doesn\x27t contain relevant information, say so politely\n" ++
    "- Maintain conversation flow and refer to previous exchanges when relevant\n" ++
    "- Be concise but thorough in your responses"⟩

/-- Cleaning of one history entry (src/streamlit_app.py:219-226): keep only
dict entries having both keys, with role `user` or `assistant`; everything
else is dropped silently. -/
def cleanMessage (m : RawEntry) : Option Message :=
  if m.isDict then
    match m.role, m.content with
    | some r, some c =>
      if r = "user" ∨ r = "assistant" then some ⟨r, c⟩ else none
    | _, _ => none
  else none

def cleanedMessages (history : List RawEntry) : List Message :=
  history.filterMap cleanMessage

/-- The fixed 10-turn context window (src/streamlit_app.py:229-230):
`cleaned_messages[-10:]` whenever more than 10 turns survive cleaning. -/
def trimHistory (l : List Message) : List Message :=
  if l.length > 10 then l.drop (l.length - 10) else l

/-- The full message sequence handed to the Answer Generator
(src/streamlit_app.py:232): `[system_message] + cleaned_messages`. -/
def buildMessages (history : List RawEntry) (top_matches : List SearchResult) :
    List Message :=
  systemMessage top_matches :: trimHistory (cleanedMessages history)

def fallbackAnswer : String :=
  "Sorry, I encountered an error while processing your request."

/-- The observable outcome of `answer_query_with_groq`: the returned
`(answer, sources)` pair, plus the `st.error` display recorded as data. -/
structure GroqReply where
  answer : String
  sources : List SearchResult
  displayed_error : Option String

/-- Embedding of `answer_query_with_groq` (src/streamlit_app.py:196-253).  `net` models the
fallible remote interaction — `requests.post`, `raise_for_status`, and the
JSON-path extraction of the generated text: `Except.error` carries the text of
whatever exception any of those steps raised (network error, non-2xx status,
malformed body), `Except.ok` the extracted content (stripped afterwards). -/
def answer_query_with_groq (conversation_history : List RawEntry)
    (top_matches : List SearchResult)
    (net : List Message → Except String String) : GroqReply :=
  match net (buildMessages conversation_history top_matches) with
  | Except.ok content => ⟨content.trim, top_matches, none⟩
  | Except.error e => ⟨fallbackAnswer, [], some ("Error calling Groq API: " ++ e)⟩

/-- A turn stored in `st.session_state.conversation_history` by `chat_page`
(src/streamlit_app.py:534-537 and 566-570); user turns carry no `sources`
key. -/
structure ChatTurn where
  role : String
  content : String
  sources : Option (List SearchResult)

/-- How a stored turn is seen by the cleaning loop: a dict with both keys. -/
def ChatTurn.toRaw (t : ChatTurn) : RawEntry :=
  ⟨true, some t.role, some t.content⟩

/-- The query-handling path of `chat_page` (src/streamlit_app.py:532-570):
append the user turn, retrieve the top-5 matches for the session user,
generate the answer, then append the assistant turn. -/
noncomputable def processUserQuery (history : List ChatTurn) (user_query : String)
    (user_id : Option String) (encode : List Char → List ℚ) (db : List DocRow)
    (net : List Message → Except String String) : List ChatTurn × GroqReply :=
  let history1 := history ++ [⟨"user", user_query, none⟩]
  let top_matches := semantic_search user_query.toList 5 user_id encode db
  let reply := answer_query_with_groq (history1.map ChatTurn.toRaw) top_matches net
  (history1 ++ [⟨"assistant", reply.answer, some reply.sources⟩], reply)

theorem cleanedMessages_length_eq {history : List RawEntry}
    (h : ∀ m ∈ history, (cleanMessage m).isSome) :
    (cleanedMessages history).length = history.length := by
  induction history with
  | nil => rfl
  | cons x xs ih =>
    obtain ⟨v, hv⟩ := Option.isSome_iff_exists.mp (h x (List.mem_cons_self x xs))
    have ih2 := ih (fun m hm => h m (List.mem_cons_of_mem _ hm))
    simp only [cleanedMessages, List.filterMap_cons, hv, List.length_cons] at *
    omega

/-- C2: the sequence handed to the Answer Generator is exactly one system
message followed by the most recent at-most-10 well-formed turns of the
history, in chronological order (malformed entries having been dropped
silently before truncation); its length never exceeds 11; and a history of 37
well-formed turns yields exactly 11 messages. -/
theorem C2_context_window (history : List RawEntry)
    (top_matches : List SearchResult) :
    buildMessages history top_matches =
        systemMessage top_matches ::
          (cleanedMessages history).drop ((cleanedMessages history).length - 10) ∧
      (buildMessages history top_matches).length ≤ 11 ∧
      ((∀ m ∈ history, (cleanMessage m).isSome) → history.length = 37 →
        (buildMessages history top_matches).length = 11) := by
  have hdrop : trimHistory (cleanedMessages history) =
      (cleanedMessages history).drop ((cleanedMessages history).length - 10) := by
    rw [trimHistory]
    split
    · rfl
    · rename_i h
      have h0 : (cleanedMessages history).length - 10 = 0 := by omega
      rw [h0, List.drop_zero]
  refine ⟨by rw [buildMessages, hdrop], ?_, ?_⟩
  · rw [buildMessages, List.length_cons, hdrop, List.length_drop]
    omega
  · intro hwf h37
    rw [buildMessages, List.length_cons, hdrop, List.length_drop,
      cleanedMessages_length_eq hwf, h37]

def wHistory37 : List RawEntry := List.replicate 37 ⟨true, some "user", some "hi"⟩

/-- Witness for C2: a well-formed history of 37 turns yields 11 messages. -/
theorem C2_context_window_witness :
    (∀ m ∈ wHistory37, (cleanMessage m).isSome) ∧ wHistory37.length = 37 ∧
      (buildMessages wHistory37 []).length = 11 := by
  have hwf : ∀ m ∈ wHistory37, (cleanMessage m).isSome := by decide
  have h37 : wHistory37.length = 37 := by decide
  exact ⟨hwf, h37, (C2_context_window wHistory37 []).2.2 hwf h37⟩

/-- C3: on any Answer Generator failure (network error, non-2xx status,
malformed body — all surfacing as an exception from the guarded block), the
call returns the fixed apology string with an empty source list, the failure
is displayed as an error, and the history keeps the already-appended user turn
unchanged: the new history is the old one plus the user turn plus the fallback
assistant turn. -/
theorem C3_generator_failure (history : List ChatTurn) (user_query : String)
    (user_id : Option String) (encode : List Char → List ℚ) (db : List DocRow)
    (net : List Message → Except String String) (e : String)
    (herr : ∀ msgs : List Message, net msgs = Except.error e) :
    (processUserQuery history user_query user_id encode db net).2.answer =
        fallbackAnswer ∧
      (processUserQuery history user_query user_id encode db net).2.sources = [] ∧
      (processUserQuery history user_query user_id encode db net).2.displayed_error =
        some ("Error calling Groq API: " ++ e) ∧
      (processUserQuery history user_query user_id encode db net).1 =
        history ++ [⟨"user", user_query, none⟩,
          ⟨"assistant", fallbackAnswer, some []⟩] := by
  simp only [processUserQuery, answer_query_with_groq, herr]
  exact ⟨trivial, trivial, trivial, by simp⟩

/-- Witness for C3: the endpoint reports HTTP 500 on every request, queried on
a concrete turn. -/
theorem C3_generator_failure_witness :
    (∀ msgs : List Message,
        (fun _ : List Message => (Except.error "HTTP 500" : Except String String))
          msgs = Except.error "HTTP 500") ∧
      (processUserQuery [] "hi" none (fun _ => []) []
          (fun _ => Except.error "HTTP 500")).2.answer = fallbackAnswer ∧
      (processUserQuery [] "hi" none (fun _ => []) []
          (fun _ => Except.error "HTTP 500")).1 =
        [] ++ [⟨"user", "hi", none⟩, ⟨"assistant", fallbackAnswer, some []⟩] := by
  have h := C3_generator_failure [] "hi" none (fun _ => []) []
    (fun _ => Except.error "HTTP 500") "HTTP 500" (fun _ => rfl)
  exact ⟨fun _ => rfl, h.1, h.2.2.2⟩

/-- Metadata of one selected Drive PDF as consumed by `import_pdfs`
(src/streamlit_app.py:403-427). -/
structure PdfMeta where
  id : String
  name : String
  modifiedTime : String
  size : Int
  parent : String
deriving DecidableEq

/-- The per-document report of the import loop: `st.success` on import,
`st.warning` when no text was extracted, `st.error` when any step raised. -/
inductive ImportEvent where
  | success (name : String)
  | warnNoText (name : String)
  | errorMsg (name : String) (e : String)
deriving DecidableEq

/-- The body of one iteration of the import loop
(src/streamlit_app.py:403-437).  `fetch` models
`download_pdf_content(init_drive_service(), id)`, which may raise (e.g. when
the Drive service is unavailable); `encode` the fallible embedding model.  An
exception anywhere inside the `try` block is caught by `except ... continue`
and becomes an error report; an empty extracted text skips the save with a
warning; otherwise the document is embedded and upserted. -/
def processOne (fetch : String → Except String (List Char))
    (encode : List Char → Except String (List ℚ)) (user_id : String) (now : Nat)
    (db : List DocRow) (pdf : PdfMeta) : List DocRow × ImportEvent :=
  match fetch pdf.id with
  | Except.error e => (db, ImportEvent.errorMsg pdf.name e)
  | Except.ok text =>
    if text = [] then (db, ImportEvent.warnNoText pdf.name)
    else
      match compute_embedding encode text with
      | Except.error e => (db, ImportEvent.errorMsg pdf.name e)
      | Except.ok emb =>
        (save_pdf_to_db db user_id pdf.id pdf.name
            ("https://drive.google.com/file/d/" ++ pdf.id ++ "/view")
            pdf.modifiedTime pdf.size pdf.parent text (some emb) now,
          ImportEvent.success pdf.name)

/-- Embedding of `import_pdfs` (src/streamlit_app.py:392-448): the strictly sequential
batch loop.  Returns the store after the batch, the per-document reports in
order, and `successful_imports`. -/
def import_pdfs (fetch : String → Except String (List Char))
    (encode : List Char → Except String (List ℚ)) (user_id : String) (now : Nat) :
    List PdfMeta → List DocRow → List DocRow × List ImportEvent × Nat
  | [], db => (db, [], 0)
  | pdf :: rest, db =>
    let step := processOne fetch encode user_id now db pdf
    let result := import_pdfs fetch encode user_id now rest step.1
    (result.1, step.2 :: result.2.1,
      (match step.2 with | ImportEvent.success _ => 1 | _ => 0) + result.2.2)

theorem processOne_fail_store {fetch : String → Except String (List Char)}
    {encode : List Char → Except String (List ℚ)} {user_id : String} {now : Nat}
    {db : List DocRow} {pdf : PdfMeta}
    (hfail : ∀ n, (processOne fetch encode user_id now db pdf).2 ≠
      ImportEvent.success n) :
    (processOne fetch encode user_id now db pdf).1 = db := by
  cases hf : fetch pdf.id with
  | error e => simp [processOne, hf]
  | ok text =>
    by_cases ht : text = []
    · simp [processOne, hf, ht]
    · cases he : compute_embedding encode text with
      | error e => simp [processOne, hf, ht, he]
      | ok emb =>
        exact absurd (by simp [processOne, hf, ht, he]) (hfail pdf.name)

theorem import_pdfs_length (fetch : String → Except String (List Char))
    (encode : List Char → Except String (List ℚ)) (user_id : String) (now : Nat) :
    ∀ (batch : List PdfMeta) (db : List DocRow),
      (import_pdfs fetch encode user_id now batch db).2.1.length = batch.length := by
  intro batch
  induction batch with
  | nil => intro db; rfl
  | cons p r ih => intro db; simp [import_pdfs, ih]

/-- C8: the failure of one document (download/extraction error, embedding error, or
empty extracted text) never aborts a batch import: the failing document is
reported and skipped — store and success count are exactly those of the batch
without it — and every remaining document is still processed in order;
moreover every document of any batch yields exactly one report. -/
theorem C8_batch_continues (fetch : String → Except String (List Char))
    (encode : List Char → Except String (List ℚ)) (user_id : String) (now : Nat)
    (db : List DocRow) (pdf : PdfMeta) (rest : List PdfMeta)
    (hfail : ∀ n, (processOne fetch encode user_id now db pdf).2 ≠
      ImportEvent.success n) :
    (import_pdfs fetch encode user_id now (pdf :: rest) db).1 =
        (import_pdfs fetch encode user_id now rest db).1 ∧
      (import_pdfs fetch encode user_id now (pdf :: rest) db).2.1 =
        (processOne fetch encode user_id now db pdf).2 ::
          (import_pdfs fetch encode user_id now rest db).2.1 ∧
      (import_pdfs fetch encode user_id now (pdf :: rest) db).2.2 =
        (import_pdfs fetch encode user_id now rest db).2.2 ∧
      ∀ (batch : List PdfMeta) (db0 : List DocRow),
        (import_pdfs fetch encode user_id now batch db0).2.1.length =
          batch.length := by
  have hstore := processOne_fail_store hfail
  have hev : (match (processOne fetch encode user_id now db pdf).2 with
      | ImportEvent.success _ => 1 | _ => 0) = 0 := by
    cases hp : (processOne fetch encode user_id now db pdf).2 with
    | success n => exact absurd hp (hfail n)
    | warnNoText n => rfl
    | errorMsg n e => rfl
  refine ⟨?_, ?_, ?_, import_pdfs_length fetch encode user_id now⟩
  · simp only [import_pdfs]
    rw [hstore]
  · simp only [import_pdfs]
    rw [hstore]
  · simp only [import_pdfs]
    rw [hstore]
    simp [hev]

def wPdfBad : PdfMeta := ⟨"idbad", "bad.pdf", "t", 1, "p"⟩

def wPdfGood : PdfMeta := ⟨"idgood", "good.pdf", "t", 2, "p"⟩

def wFetch : String → Except String (List Char) := fun i =>
  if i = "idbad" then Except.error "network error" else Except.ok ['h', 'i']

def wEncode : List Char → Except String (List ℚ) := fun _ => Except.ok [1, 0]

/-- Witness for C8: a two-document batch whose first document fails to
download; the second is still imported. -/
theorem C8_batch_continues_witness :
    (∀ n, (processOne wFetch wEncode "u" 0 [] wPdfBad).2 ≠
        ImportEvent.success n) ∧
      (import_pdfs wFetch wEncode "u" 0 [wPdfBad, wPdfGood] []).1 =
        (import_pdfs wFetch wEncode "u" 0 [wPdfGood] []).1 ∧
      (import_pdfs wFetch wEncode "u" 0 [wPdfBad, wPdfGood] []).2.1 =
        (processOne wFetch wEncode "u" 0 [] wPdfBad).2 ::
          (import_pdfs wFetch wEncode "u" 0 [wPdfGood] []).2.1 := by
  have hfail : ∀ n, (processOne wFetch wEncode "u" 0 [] wPdfBad).2 ≠
      ImportEvent.success n := by
    intro n h
    simp [processOne, wFetch, wPdfBad] at h
  have h := C8_batch_continues wFetch wEncode "u" 0 [] wPdfBad [wPdfGood] hfail
  exact ⟨hfail, h.1, h.2.1⟩

theorem mem_save_pdf_to_db {db : List DocRow} {row : DocRow}
    {uid fid nm link mtime : String} {size : Int} {parent : String}
    {text : List Char} {emb : Option (List ℚ)} {now : Nat}
    (h : row ∈ save_pdf_to_db db uid fid nm link mtime size parent text emb now) :
    row ∈ db ∨ row = ⟨uid, fid, nm, link, mtime, size, parent, text, emb, now⟩ := by
  rw [save_pdf_to_db, List.mem_append] at h
  rcases h with h | h
  · exact Or.inl ((List.filter_sublist db).subset h)
  · exact Or.inr (by simpa using h)

theorem processOne_store_cases (fetch : String → Except String (List Char))
    (encode : List Char → Except String (List ℚ)) (user_id : String) (now : Nat)
    (db : List DocRow) (pdf : PdfMeta) :
    (processOne fetch encode user_id now db pdf).1 = db ∨
      ∃ text emb, text ≠ [] ∧
        (processOne fetch encode user_id now db pdf).1 =
          save_pdf_to_db db user_id pdf.id pdf.name
            ("https://drive.google.com/file/d/" ++ pdf.id ++ "/view")
            pdf.modifiedTime pdf.size pdf.parent text (some emb) now := by
  cases hf : fetch pdf.id with
  | error e => exact Or.inl (by simp [processOne, hf])
  | ok text =>
    by_cases ht : text = []
    · exact Or.inl (by simp [processOne, hf, ht])
    · cases he : compute_embedding encode text with
      | error e => exact Or.inl (by simp [processOne, hf, ht, he])
      | ok emb => exact Or.inr ⟨text, emb, ht, by simp [processOne, hf, ht, he]⟩

/-- C10: every row written by the import flow has non-empty `text_content` and
a present embedding: after any batch import, every store row is either a
pre-existing row or has non-empty text and a present embedding — a document
whose extraction yields empty text is never persisted at all. -/
theorem C10_import_rows_wellformed (fetch : String → Except String (List Char))
    (encode : List Char → Except String (List ℚ)) (user_id : String) (now : Nat) :
    ∀ (batch : List PdfMeta) (db : List DocRow),
      ∀ row ∈ (import_pdfs fetch encode user_id now batch db).1,
        row ∈ db ∨ (row.text_content ≠ [] ∧ row.embedding.isSome) := by
  intro batch
  induction batch with
  | nil => exact fun db row hrow => Or.inl hrow
  | cons pdf rest ih =>
    intro db row hrow
    simp only [import_pdfs] at hrow
    rcases ih (processOne fetch encode user_id now db pdf).1 row hrow with h1 | h1
    · rcases processOne_store_cases fetch encode user_id now db pdf with hc | hc
      · rw [hc] at h1
        exact Or.inl h1
      · obtain ⟨text, emb, ht, hsave⟩ := hc
        rw [hsave] at h1
        rcases mem_save_pdf_to_db h1 with h2 | h2
        · exact Or.inl h2
        · refine Or.inr ?_
          rw [h2]
          exact ⟨ht, rfl⟩
    · exact Or.inr h1

/-- Witness for C10: importing one document with non-empty text leaves exactly
one row, which carries non-empty text and a present embedding. -/
theorem C10_import_rows_wellformed_witness :
    (⟨"u", "idgood", "good.pdf", "https://drive.google.com/file/d/idgood/view",
        "t", 2, "p", ['h', 'i'], some [1, 0], 0⟩ : DocRow) ∈
        (import_pdfs wFetch wEncode "u" 0 [wPdfGood] []).1 ∧
      ((⟨"u", "idgood", "good.pdf", "https://drive.google.com/file/d/idgood/view",
          "t", 2, "p", ['h', 'i'], some [1, 0], 0⟩ : DocRow) ∈ ([] : List DocRow) ∨
        ((['h', 'i'] : List Char) ≠ [] ∧ (some [(1 : ℚ), 0]).isSome)) := by
  have hmem : (⟨"u", "idgood", "good.pdf",
      "https://drive.google.com/file/d/idgood/view",
      "t", 2, "p", ['h', 'i'], some [1, 0], 0⟩ : DocRow) ∈
      (import_pdfs wFetch wEncode "u" 0 [wPdfGood] []).1 := by
    decide
  exact ⟨hmem,
    C10_import_rows_wellformed wFetch wEncode "u" 0 [wPdfGood] [] _ hmem⟩

end IMOS
